import Mathlib

/-!
# Verification of the `StatsManager` statistics subsystem

Shallow embedding of the `StatsManager` class of `main.py` (quiz-trainer
repository): the attempt log, the goal list, the derived statistics
(`compute_overall`, `theme_breakdown`, `progress_speed`, `moving_success`)
and the goal lifecycle (`add_goal`, `update_goal`, `delete_goal`,
`set_active_goal`, `record_attempt`), together with a JSON-value-level model
of `save` and `load` (legacy migration, corrupted-file recovery).

Python floats on the statistics paths only ever hold exact small rationals
(counts divided by counts, times 100), so rates and timestamps are modelled
by `Rat`.
-/

namespace QuizStats

/-- One answered-question record, as built by `StatsManager.record_attempt`:
`{question_id, theme, category, correct, source, ts}`. -/
structure Attempt where
  question_id : Int
  theme : String
  category : String
  correct : Bool
  source : String
  ts : Rat
deriving DecidableEq, Repr

/-- One goal record `{id, target, label}`. -/
structure Goal where
  id : Int
  target : Rat
  label : String
deriving DecidableEq, Repr

/-- The in-memory store `StatsManager.data`: attempt log, goal list and the
nullable active-goal pointer. -/
structure Store where
  attempts : List Attempt
  goals : List Goal
  active_goal_id : Option Int
deriving DecidableEq, Repr

/-- A quiz question (`Question` dataclass): `answer` is a boolean for TF
questions and a choice string for QCM questions. -/
inductive Answer where
  | tf (b : Bool)
  | qcm (s : String)
deriving DecidableEq, Repr

/-- The `Question` dataclass of `main.py`. `category` is the literal string
`"TF"` or `"QCM"` as stored by the Python code. -/
structure Question where
  id : Int
  category : String
  thematic : String
  question : String
  choices : Option (List String)
  answer : Answer
  explication : Option String
deriving DecidableEq, Repr

/-- `StatsManager.record_attempt`: appends one attempt built from the
question's id/theme/category; the timestamp defaults to the current clock
value `now` when omitted. -/
def record_attempt (q : Question) (correct : Bool) (source : String)
    (timestamp : Option Rat) (now : Rat) (s : Store) : Store :=
  { s with attempts := s.attempts ++
      [{ question_id := q.id, theme := q.thematic, category := q.category,
         correct := correct, source := source, ts := timestamp.getD now }] }

/-- `StatsManager._next_goal_id`: `max(existing ids) + 1`, or `1` when the
goal list is empty (Python: `(max(existing) if existing else 0) + 1`). -/
def next_goal_id (s : Store) : Int :=
  (match s.goals.map Goal.id with
   | [] => 0
   | x :: xs => xs.foldl max x) + 1

/-- `StatsManager.get_goal`: looks up the goal with the given id, or the
active goal when the id is omitted (`None`), returning the first match. -/
def get_goal (goal_id : Option Int) (s : Store) : Option Goal :=
  let target_id := match goal_id with
    | some i => some i
    | none => s.active_goal_id
  match target_id with
  | none => none
  | some tid => s.goals.find? (fun g => g.id = tid)

/-- `StatsManager.add_goal`: appends a goal with the next id; it becomes
active when no goal was active. Returns the new id and the new store. -/
def add_goal (target_percent : Rat) (label : String) (s : Store) :
    Int × Store :=
  let goal_id := next_goal_id s
  let goals := s.goals ++ [{ id := goal_id, target := target_percent, label := label }]
  let active := match s.active_goal_id with
    | none => some goal_id
    | some i => some i
  (goal_id, { s with goals := goals, active_goal_id := active })

/-- Replace the first goal carrying id `gid` by the given target/label
(Python mutates the dict returned by `get_goal` in place). -/
def updateFirstGoal (gid : Int) (target_percent : Rat) (label : String) :
    List Goal → List Goal
  | [] => []
  | g :: rest =>
      if g.id = gid then { g with target := target_percent, label := label } :: rest
      else g :: updateFirstGoal gid target_percent label rest

/-- `StatsManager.update_goal`: mutates the first goal with the given id in
place; returns the store unchanged when the id does not exist. -/
def update_goal (goal_id : Int) (target_percent : Rat) (label : String)
    (s : Store) : Store :=
  match get_goal (some goal_id) s with
  | none => s
  | some _ => { s with goals := updateFirstGoal goal_id target_percent label s.goals }

/-- `StatsManager.delete_goal`: removes every goal with the given id; when
the deleted goal was active, the active pointer moves to the first remaining
goal's id, or to `none` when no goal remains. -/
def delete_goal (goal_id : Int) (s : Store) : Store :=
  let goals := s.goals.filter (fun g => g.id ≠ goal_id)
  let active := if s.active_goal_id = some goal_id then goals.head?.map Goal.id
    else s.active_goal_id
  { s with goals := goals, active_goal_id := active }

/-- `StatsManager.set_active_goal`: accepts `none` to clear the pointer and
otherwise only an id carried by some stored goal; an unknown id leaves the
store unchanged. -/
def set_active_goal (goal_id : Option Int) (s : Store) : Store :=
  match goal_id with
  | none => { s with active_goal_id := none }
  | some i =>
      if s.goals.any (fun g => g.id = i) then { s with active_goal_id := some i }
      else s

/-- `StatsManager._filtered_attempts`: all attempts when the filter is
`None` or the sentinel `"Tous"`, else the attempts of the given theme. -/
def filtered_attempts (theme : Option String) (s : Store) : List Attempt :=
  match theme with
  | none => s.attempts
  | some t => if t = "Tous" then s.attempts
      else s.attempts.filter (fun a => a.theme = t)

/-- The `{total, correct, rate}` summary returned by `compute_overall` and
by each `theme_breakdown` entry. -/
structure OverallStats where
  total : Nat
  correct : Nat
  rate : Rat
deriving DecidableEq, Repr

/-- `StatsManager.compute_overall`:
`rate = (correct / total) * 100 if total else 0.0`. -/
def compute_overall (theme : Option String) (s : Store) : OverallStats :=
  let attempts := filtered_attempts theme s
  let total := attempts.length
  let correct := attempts.countP (fun a => a.correct)
  let rate : Rat := if total = 0 then 0 else ((correct : Rat) / (total : Rat)) * 100
  { total := total, correct := correct, rate := rate }

/-- One step of the `theme_breakdown` grouping loop: bump the (total,
correct) counters of theme `t`, inserting the key on first sight (Python
`results.setdefault` on an insertion-ordered dict). -/
def bumpTheme (t : String) (correct : Bool) :
    List (String × Nat × Nat) → List (String × Nat × Nat)
  | [] => [(t, 1, if correct then 1 else 0)]
  | (t', tot, cor) :: rest =>
      if t' = t then (t', tot + 1, cor + (if correct then 1 else 0)) :: rest
      else (t', tot, cor) :: bumpTheme t correct rest

/-- `StatsManager.theme_breakdown`: group the (optionally pre-filtered)
attempts by their own theme field, then attach
`rate = (correct / total) * 100 if total else 0.0` to each group. -/
def theme_breakdown (theme : Option String) (s : Store) :
    List (String × OverallStats) :=
  let counts := (filtered_attempts theme s).foldl
    (fun acc a => bumpTheme a.theme a.correct acc) []
  counts.map (fun p =>
    (p.1, { total := p.2.1, correct := p.2.2,
            rate := if p.2.1 = 0 then 0 else ((p.2.2 : Rat) / (p.2.1 : Rat)) * 100 }))

/-- `StatsManager.progress_speed` for `window ≥ 1`: `none` when fewer than
`2 * window` attempts exist, else the success rate of the last `window`
attempts minus that of the `window` attempts before them (Python slices
`attempts[-window:]` and `attempts[-window*2:-window]`). -/
def progress_speed (window : Nat) (s : Store) : Option Rat :=
  let attempts := s.attempts
  if attempts.length < window * 2 then none
  else
    let recent := attempts.drop (attempts.length - window)
    let previous := (attempts.drop (attempts.length - window * 2)).take window
    some ((recent.countP (fun a => a.correct) : Rat) / (window : Rat) * 100
      - (previous.countP (fun a => a.correct) : Rat) / (window : Rat) * 100)

/-- One step of the `moving_success` rolling buffer: append the 0/1 outcome
and pop the front once the buffer exceeds the window. -/
def rollStep (window : Nat) (rolling : List Nat) (bit : Nat) : List Nat :=
  let rolling1 := rolling ++ [bit]
  if window < rolling1.length then rolling1.drop 1 else rolling1

/-- The `moving_success` loop over the chronologically sorted attempts,
carrying the rolling buffer and the 1-based index. -/
def movingLoop (window : Nat) : List Attempt → List Nat → Nat → List (Nat × Rat)
  | [], _, _ => []
  | a :: rest, rolling, idx =>
      let rolling' := rollStep window rolling (if a.correct then 1 else 0)
      (idx, ((rolling'.sum : Rat) / (rolling'.length : Rat)) * 100)
        :: movingLoop window rest rolling' (idx + 1)

/-- `StatsManager.moving_success`: sort the filtered attempts by timestamp
(Python `sorted` is stable; modelled by `mergeSort`) and emit one
`(index, rolling rate)` point per attempt. -/
def moving_success (window : Nat) (theme : Option String) (s : Store) :
    List (Nat × Rat) :=
  let attempts := (filtered_attempts theme s).mergeSort (fun a b => a.ts ≤ b.ts)
  movingLoop window attempts [] 1

/-! ## Persistence: JSON-value model of `save` and `load`

`save` serialises `StatsManager.data` as one JSON document and `load` reads
it back; the file content is modelled at the level of parsed JSON values
(`JValue`), and a file is either absent, unparseable (`json.JSONDecodeError`)
or some parsed value.  Dictionaries are insertion-ordered association lists
as in Python. -/

/-- A parsed JSON value.  Numbers are `Rat` (the statistics files only ever
hold exact ints/floats). -/
inductive JValue where
  | null
  | bool (b : Bool)
  | num (q : Rat)
  | str (s : String)
  | arr (xs : List JValue)
  | obj (fields : List (String × JValue))

/-- A JSON object: insertion-ordered key/value pairs. -/
abbrev JObj := List (String × JValue)

/-- First-match key lookup in an object. -/
def jget (o : JObj) (k : String) : Option JValue :=
  match o with
  | [] => none
  | (k', v) :: rest => if k' = k then some v else jget rest k

/-- Python's `dict.get(k)`: `None` both for a missing key and a stored
null. -/
def pyget (o : JObj) (k : String) : JValue :=
  (jget o k).getD JValue.null

/-- Python's `dict.get(k, d)` with an explicit default. -/
def pygetD (o : JObj) (k : String) (d : JValue) : JValue :=
  match jget o k with
  | some v => v
  | none => d

/-- `d[k] = v`: replace the first binding of `k` in place, or append. -/
def jset (o : JObj) (k : String) (v : JValue) : JObj :=
  match o with
  | [] => [(k, v)]
  | (k', v') :: rest =>
      if k' = k then (k', v) :: rest else (k', v') :: jset rest k v

/-- `d.update(saved)`: fold `jset` over the saved bindings. -/
def jupdate (o : JObj) (saved : JObj) : JObj :=
  saved.foldl (fun acc p => jset acc p.1 p.2) o

/-- `d.setdefault(k, v)`. -/
def jsetdefault (o : JObj) (k : String) (v : JValue) : JObj :=
  match jget o k with
  | some _ => o
  | none => o ++ [(k, v)]

/-- `v is None` on a `.get` result. -/
def JValue.isNull : JValue → Bool
  | .null => true
  | _ => false

/-- Python `float(v)` restricted to the values the store can hold: numbers
pass through, booleans coerce to 0/1, anything else raises (modelled as
`none`; numeric-string coercion is not modelled, no claim exercises it). -/
def pyFloat : JValue → Option Rat
  | .num q => some q
  | .bool b => some (if b then 1 else 0)
  | _ => none

/-- The defaults installed by `StatsManager.__init__` before `load` runs. -/
def defaultData : JObj :=
  [("attempts", JValue.arr []), ("goals", JValue.arr []),
   ("active_goal_id", JValue.null)]

/-- The state of the storage file as `load` finds it. -/
inductive FileState where
  | absent
  | corrupt
  | content (v : JValue)

/-- The tail of `StatsManager.load`: write back the goal list, default the
remaining keys, and point the active id at the first goal when it is null.
`none` models an uncaught exception (`goals[0]` not a dict). -/
def loadFinish (d : JObj) (goals : List JValue) : Option JObj :=
  let d := jset d "goals" (JValue.arr goals)
  let d := jsetdefault d "active_goal_id" JValue.null
  let d := jsetdefault d "attempts" (JValue.arr [])
  match goals with
  | [] => some d
  | g0 :: _ =>
      if (pyget d "active_goal_id").isNull then
        match g0 with
        | .obj o => some (jset d "active_goal_id" (pyget o "id"))
        | _ => none
      else some d

/-- `StatsManager.load`: merge the saved document over the defaults
(resetting on a decode error), then migrate the legacy single-goal format
and repair the active pointer.  `none` models an uncaught exception. -/
def loadData (fs : FileState) : Option JObj :=
  let d1 := match fs with
    | .absent => defaultData
    | .corrupt => defaultData
    | .content v =>
        match v with
        | .obj saved => jupdate defaultData saved
        | _ => defaultData
  let legacy := pyget d1 "goal"
  let goals0 : List JValue := match pyget d1 "goals" with
    | .arr xs => xs
    | _ => []
  match goals0, legacy with
  | [], .obj lg =>
      match pyget lg "target" with
      | .null => loadFinish d1 []
      | tgt =>
          match pyFloat tgt with
          | none => none
          | some t =>
              let g := JValue.obj
                [("id", JValue.num 1), ("target", JValue.num t),
                 ("label", pygetD lg "label" (JValue.str ""))]
              loadFinish (jset d1 "active_goal_id" (JValue.num 1)) [g]
  | gs, _ => loadFinish d1 gs

/-- JSON encoding of one attempt, with the key order `record_attempt`
uses. -/
def encodeAttempt (a : Attempt) : JValue :=
  JValue.obj
    [("question_id", JValue.num (a.question_id : Rat)),
     ("theme", JValue.str a.theme),
     ("category", JValue.str a.category),
     ("correct", JValue.bool a.correct),
     ("source", JValue.str a.source),
     ("ts", JValue.num a.ts)]

/-- JSON encoding of one goal. -/
def encodeGoal (g : Goal) : JValue :=
  JValue.obj
    [("id", JValue.num (g.id : Rat)), ("target", JValue.num g.target),
     ("label", JValue.str g.label)]

/-- JSON encoding of the active-goal pointer. -/
def encodeOptId : Option Int → JValue
  | none => JValue.null
  | some i => JValue.num (i : Rat)

/-- `StatsManager.save`: the JSON document written to disk, including the
legacy `"goal"` mirror of the active goal. -/
def saveData (s : Store) : JObj :=
  let mirror := match get_goal none s with
    | some g => JValue.obj
        [("target", JValue.num g.target), ("label", JValue.str g.label)]
    | none => JValue.obj [("target", JValue.null), ("label", JValue.str "")]
  [("attempts", JValue.arr (s.attempts.map encodeAttempt)),
   ("goals", JValue.arr (s.goals.map encodeGoal)),
   ("active_goal_id", encodeOptId s.active_goal_id),
   ("goal", mirror)]

/-- The store invariant: a non-null `active_goal_id` always carries the id
of some stored goal. -/
def goal_invariant (s : Store) : Prop :=
  ∀ i, s.active_goal_id = some i → ∃ g ∈ s.goals, g.id = i

instance (s : Store) : Decidable (goal_invariant s) := by
  unfold goal_invariant
  match h : s.active_goal_id with
  | none => exact .isTrue (by simp [h])
  | some j =>
      refine decidable_of_iff (∃ g ∈ s.goals, g.id = j) ?_
      constructor
      · rintro hg i hi
        exact Option.some.inj hi ▸ hg
      · intro hall
        exact hall j rfl

/-- The trailing `n` elements of a list (the contents of a full rolling
buffer). -/
def lastN (n : Nat) (l : List Nat) : List Nat :=
  l.drop (l.length - n)

/-- Lookup of a theme's `(total, correct)` counters in the grouping
accumulator of `theme_breakdown`. -/
def lookupTheme (acc : List (String × Nat × Nat)) (t : String) :
    Option (Nat × Nat) :=
  match acc with
  | [] => none
  | (t', v) :: rest => if t' = t then some v else lookupTheme rest t

/-- How one fold over an attempt list changes the counters of a fixed
theme: the counters grow by that theme's totals, and a fresh key appears
exactly when the theme occurs. -/
def combineCounts (o : Option (Nat × Nat)) (n m : Nat) : Option (Nat × Nat) :=
  match o with
  | none => if n = 0 then none else some (n, m)
  | some (x, y) => some (x + n, y + m)

/-- A sample attempt used to instantiate the general theorems. -/
def sampleAttempt (qid : Int) (t : String) (c : Bool) (ts : Rat) : Attempt :=
  { question_id := qid, theme := t, category := "TF", correct := c,
    source := "quiz", ts := ts }

/-- A store with no attempts and no goals. -/
def emptyStore : Store :=
  { attempts := [], goals := [], active_goal_id := none }

/-- A store holding one goal, which is active. -/
def oneGoalStore : Store :=
  { attempts := [], goals := [{ id := 1, target := 50, label := "" }],
    active_goal_id := some 1 }

/-- A store with one attempt whose theme is the literal string `"Tous"`,
the sentinel `_filtered_attempts` reserves for "all themes", plus one
attempt of another theme. -/
def tousStore : Store :=
  { emptyStore with
    attempts := [sampleAttempt 0 "Tous" true 0, sampleAttempt 1 "A" false 1] }

/-! ## Theorems -/

theorem get_goal_some (gid : Int) (s : Store) :
    get_goal (some gid) s = s.goals.find? (fun g => g.id = gid) := rfl

theorem updateFirstGoal_map_id (gid : Int) (t : Rat) (l : String)
    (gs : List Goal) :
    (updateFirstGoal gid t l gs).map Goal.id = gs.map Goal.id := by
  induction gs with
  | nil => rfl
  | cons g rest ih =>
      unfold updateFirstGoal
      by_cases h : g.id = gid
      · simp [h]
      · simp [h, ih]

/-- C1: `compute_overall` returns the number of theme-filtered attempts,
the number of correct ones among them, and a rate of `0` when the total is
`0` and `100 * correct / total` otherwise. -/
theorem compute_overall_spec (theme : Option String) (s : Store) :
    compute_overall theme s =
      { total := (filtered_attempts theme s).length,
        correct := ((filtered_attempts theme s).filter (fun a => a.correct)).length,
        rate :=
          if (filtered_attempts theme s).length = 0 then 0
          else 100 * (((filtered_attempts theme s).filter (fun a => a.correct)).length : Rat)
            / ((filtered_attempts theme s).length : Rat) } := by
  unfold compute_overall
  simp only [List.countP_eq_length_filter, OverallStats.mk.injEq]
  refine ⟨trivial, trivial, ?_⟩
  split
  · rfl
  · ring

/-- C5: `add_goal` assigns id `max(existing ids) + 1` (`1` on an empty goal
list) and activates the new goal when none is active; from an empty goal
list, `add_goal 80 "mid-term"` yields id 1 and active pointer 1, and
deleting goal 1 afterwards resets the active pointer to null. -/
theorem add_goal_spec (s : Store) (t : Rat) (l : String)
    (hinv : goal_invariant s) :
    (s.goals = [] → (add_goal t l s).1 = 1) ∧
    (∀ m : Int, (s.goals.map Goal.id).max? = some m → (add_goal t l s).1 = m + 1) ∧
    (s.active_goal_id = none →
      (add_goal t l s).2.active_goal_id = some (add_goal t l s).1) ∧
    (s.goals = [] →
      (add_goal 80 "mid-term" s).1 = 1 ∧
      (add_goal 80 "mid-term" s).2.active_goal_id = some 1 ∧
      (delete_goal 1 (add_goal 80 "mid-term" s).2).active_goal_id = none) := by
  have hactive_of_empty : s.goals = [] → s.active_goal_id = none := by
    intro hgs
    cases hact : s.active_goal_id with
    | none => rfl
    | some i =>
        obtain ⟨g, hg, -⟩ := hinv i hact
        rw [hgs] at hg
        cases hg
  refine ⟨?_, ?_, ?_, ?_⟩
  · intro hgs
    simp [add_goal, next_goal_id, hgs]
  · intro m hm
    cases hgs : s.goals with
    | nil => rw [hgs] at hm; cases hm
    | cons g rest =>
        rw [hgs] at hm
        have hm' : some ((List.map Goal.id rest).foldl max g.id) = some m := hm
        have hfold := Option.some.inj hm'
        simp only [add_goal, next_goal_id, hgs, List.map_cons]
        show List.foldl max g.id (List.map Goal.id rest) + 1 = m + 1
        omega
  · intro hact
    simp [add_goal, hact]
  · intro hgs
    have hact := hactive_of_empty hgs
    refine ⟨by simp [add_goal, next_goal_id, hgs], by simp [add_goal, next_goal_id, hgs, hact], ?_⟩
    simp [add_goal, next_goal_id, hgs, hact, delete_goal, List.filter]

theorem add_goal_spec_witness :
    (add_goal 80 "mid-term"
      { attempts := [], goals := [], active_goal_id := none }).1 = 1 :=
  (add_goal_spec { attempts := [], goals := [], active_goal_id := none } 80 "mid-term"
    (fun _ h => Option.noConfusion h)).1 rfl

/-- C9: `update_goal` and `set_active_goal` on a goal id that matches no
stored goal leave the store unchanged. -/
theorem invalid_goal_ops_noop (s : Store) (gid : Int) (t : Rat) (l : String)
    (h : ∀ g ∈ s.goals, g.id ≠ gid) :
    update_goal gid t l s = s ∧ set_active_goal (some gid) s = s := by
  have hfind : s.goals.find? (fun g => g.id = gid) = none := by
    rw [List.find?_eq_none]
    intro g hg
    simpa using h g hg
  constructor
  · unfold update_goal
    rw [get_goal_some, hfind]
  · unfold set_active_goal
    have hany : s.goals.any (fun g => g.id = gid) = false := by
      simp only [List.any_eq_false, decide_eq_true_eq]
      exact h
    simp [hany]

theorem invalid_goal_ops_noop_witness :
    update_goal 2 10 "x" { attempts := [], goals := [{ id := 1, target := 50, label := "" }], active_goal_id := some 1 }
        = { attempts := [], goals := [{ id := 1, target := 50, label := "" }], active_goal_id := some 1 } ∧
      set_active_goal (some 2) { attempts := [], goals := [{ id := 1, target := 50, label := "" }], active_goal_id := some 1 }
        = { attempts := [], goals := [{ id := 1, target := 50, label := "" }], active_goal_id := some 1 } :=
  invalid_goal_ops_noop _ 2 10 "x" (by intro g hg; simp at hg; subst hg; decide)

/-- C6: every single mutating operation preserves the invariant that a
non-null `active_goal_id` names a stored goal; deleting the active goal
repoints the active id at the first remaining goal, or at null. -/
theorem mutation_preserves_invariant (s : Store) (hinv : goal_invariant s) :
    (∀ q c src ts now, goal_invariant (record_attempt q c src ts now s)) ∧
    (∀ t l, goal_invariant (add_goal t l s).2) ∧
    (∀ gid t l, goal_invariant (update_goal gid t l s)) ∧
    (∀ gid, goal_invariant (delete_goal gid s)) ∧
    (∀ go, goal_invariant (set_active_goal go s)) ∧
    (∀ gid, s.active_goal_id = some gid →
      (delete_goal gid s).active_goal_id =
        ((s.goals.filter (fun g => g.id ≠ gid)).head?.map Goal.id)) := by
  refine ⟨?_, ?_, ?_, ?_, ?_, ?_⟩
  · intro q c src ts now i hi
    exact hinv i hi
  · intro t l i hi
    cases hact : s.active_goal_id with
    | none =>
        simp only [add_goal, hact] at hi
        obtain rfl := Option.some.inj hi
        exact ⟨_, List.mem_append_right _ (List.mem_singleton_self _), rfl⟩
    | some j =>
        simp only [add_goal, hact] at hi
        have hji := Option.some.inj hi
        obtain ⟨g, hg, hgid⟩ := hinv j hact
        exact ⟨g, List.mem_append_left _ hg, hji ▸ hgid⟩
  · intro gid t l i hi
    unfold update_goal at hi ⊢
    cases hg : get_goal (some gid) s with
    | none => rw [hg] at hi; exact hinv i hi
    | some g0 =>
        rw [hg] at hi
        obtain ⟨g, hg', hgid⟩ := hinv i hi
        have : i ∈ (updateFirstGoal gid t l s.goals).map Goal.id := by
          rw [updateFirstGoal_map_id]
          exact List.mem_map.mpr ⟨g, hg', hgid⟩
        obtain ⟨g', hg'', hgid'⟩ := List.mem_map.mp this
        exact ⟨g', hg'', hgid'⟩
  · intro gid i hi
    simp only [delete_goal] at hi ⊢
    by_cases hact : s.active_goal_id = some gid
    · rw [if_pos hact] at hi
      obtain ⟨g0, hg0, hgid⟩ := Option.map_eq_some'.mp hi
      exact ⟨g0, List.mem_of_mem_head? hg0, hgid⟩
    · rw [if_neg hact] at hi
      obtain ⟨g, hg, hgid⟩ := hinv i hi
      refine ⟨g, List.mem_filter.mpr ⟨hg, ?_⟩, hgid⟩
      have : i ≠ gid := fun hE => hact (hE ▸ hi)
      simpa [hgid] using this
  · intro go i hi
    cases go with
    | none => simp only [set_active_goal] at hi; cases hi
    | some j =>
        by_cases hany : s.goals.any (fun g => g.id = j) = true
        · simp only [set_active_goal, hany, if_true] at hi ⊢
          have hji := Option.some.inj hi
          obtain ⟨g, hg, hgid⟩ := List.any_eq_true.mp hany
          exact ⟨g, hg, hji ▸ of_decide_eq_true hgid⟩
        · simp only [set_active_goal] at hi ⊢
          rw [if_neg hany] at hi ⊢
          exact hinv i hi
  · intro gid hact
    simp [delete_goal, hact]

theorem mutation_preserves_invariant_witness :
    (delete_goal 1 oneGoalStore).active_goal_id =
      (oneGoalStore.goals.filter (fun g => g.id ≠ 1)).head?.map Goal.id :=
  (mutation_preserves_invariant oneGoalStore
    (fun _ hi => ⟨_, List.mem_singleton_self _, Option.some.inj hi⟩)).2.2.2.2.2 1 rfl

/-- C3: for `w ≥ 1`, `progress_speed w` is `none` exactly when fewer than
`2 * w` attempts exist, and otherwise equals the success-rate percentage of
the last `w` attempts minus that of the `w` attempts before them, both taken
from the trailing `2 * w` attempts. -/
theorem progress_speed_spec (s : Store) (w : Nat) (hw : 1 ≤ w) :
    (progress_speed w s = none ↔ s.attempts.length < 2 * w) ∧
    (2 * w ≤ s.attempts.length →
      progress_speed w s = some
        (100 * (((s.attempts.drop (s.attempts.length - 2 * w)).drop w).countP
            (fun a => a.correct) : Rat) / (w : Rat)
          - 100 * (((s.attempts.drop (s.attempts.length - 2 * w)).take w).countP
            (fun a => a.correct) : Rat) / (w : Rat))) := by
  constructor
  · constructor
    · intro hnone
      by_contra hge
      unfold progress_speed at hnone
      rw [if_neg (by omega)] at hnone
      cases hnone
    · intro hlt
      unfold progress_speed
      rw [if_pos (by omega)]
  · intro hle
    unfold progress_speed
    rw [if_neg (by omega)]
    have hdd : s.attempts.drop (s.attempts.length - w)
        = (s.attempts.drop (s.attempts.length - 2 * w)).drop w := by
      rw [List.drop_drop]
      congr 1
      omega
    have hw2 : s.attempts.length - w * 2 = s.attempts.length - 2 * w := by omega
    simp only [Option.some.injEq]
    rw [hdd, hw2]
    ring

theorem progress_speed_spec_witness :
    progress_speed 1
        { emptyStore with attempts := [sampleAttempt 0 "A" true 0] } = none ↔
      ([sampleAttempt 0 "A" true 0] : List Attempt).length < 2 * 1 :=
  (progress_speed_spec { emptyStore with attempts := [sampleAttempt 0 "A" true 0] }
    1 (by decide)).1

/-- C7: a stored file holding only the legacy single-goal object
`{"goal": {"target": 75, "label": "x"}}` loads into a store with
`goals = [{"id": 1, "target": 75.0, "label": "x"}]` and
`active_goal_id = 1`. -/
theorem legacy_goal_migration :
    loadData (FileState.content (JValue.obj
      [("goal", JValue.obj [("target", JValue.num 75), ("label", JValue.str "x")])]))
    = some
      [("attempts", JValue.arr []),
       ("goals", JValue.arr [JValue.obj
         [("id", JValue.num 1), ("target", JValue.num 75), ("label", JValue.str "x")]]),
       ("active_goal_id", JValue.num 1),
       ("goal", JValue.obj [("target", JValue.num 75), ("label", JValue.str "x")])] := by
  rfl

/-- C8: an unparseable stored file does not raise and leaves the store at
the empty defaults: no attempts, no goals, null active goal. -/
theorem corrupt_file_resets_defaults :
    loadData FileState.corrupt
      = some [("attempts", JValue.arr []), ("goals", JValue.arr []),
              ("active_goal_id", JValue.null)] := by
  rfl

theorem encodeAttempt_injective : Function.Injective encodeAttempt := by
  intro a b h
  cases a
  cases b
  simp only [encodeAttempt, JValue.obj.injEq, List.cons.injEq, Prod.mk.injEq,
    JValue.num.injEq, JValue.str.injEq, JValue.bool.injEq, Int.cast_inj,
    and_true, true_and] at h
  simp_all [Attempt.mk.injEq]

theorem encodeGoal_injective : Function.Injective encodeGoal := by
  intro a b h
  cases a
  cases b
  simp only [encodeGoal, JValue.obj.injEq, List.cons.injEq, Prod.mk.injEq,
    JValue.num.injEq, JValue.str.injEq, Int.cast_inj, and_true, true_and] at h
  simp_all [Goal.mk.injEq]

/-- C10: writing a store with `save` and reading the document back with
`load` succeeds and reproduces the attempt list (same order) and the goal
list exactly; the encodings are injective, so equal encodings mean equal
records. -/
theorem save_load_roundtrip (s : Store) :
    ∃ d, loadData (FileState.content (JValue.obj (saveData s))) = some d ∧
      pyget d "attempts" = JValue.arr (s.attempts.map encodeAttempt) ∧
      pyget d "goals" = JValue.arr (s.goals.map encodeGoal) ∧
      Function.Injective encodeAttempt ∧ Function.Injective encodeGoal := by
  obtain ⟨atts, goals, act⟩ := s
  cases goals with
  | nil =>
      cases act with
      | none =>
          exact ⟨_, rfl, rfl, rfl, encodeAttempt_injective, encodeGoal_injective⟩
      | some i =>
          exact ⟨_, rfl, rfl, rfl, encodeAttempt_injective, encodeGoal_injective⟩
  | cons g0 gs =>
      cases act with
      | none =>
          exact ⟨_, rfl, rfl, rfl, encodeAttempt_injective, encodeGoal_injective⟩
      | some i =>
          exact ⟨_, rfl, rfl, rfl, encodeAttempt_injective, encodeGoal_injective⟩

theorem lookupTheme_bumpTheme_self (t : String) (c : Bool)
    (acc : List (String × Nat × Nat)) :
    lookupTheme (bumpTheme t c acc) t =
      some (match lookupTheme acc t with
        | none => (1, if c then 1 else 0)
        | some (x, y) => (x + 1, y + if c then 1 else 0)) := by
  induction acc with
  | nil => simp [bumpTheme, lookupTheme]
  | cons p rest ih =>
      obtain ⟨t0, tot, cor⟩ := p
      by_cases h0 : t0 = t
      · subst h0
        simp [bumpTheme, lookupTheme]
      · simp [bumpTheme, lookupTheme, h0, ih]

theorem lookupTheme_bumpTheme_ne (t t' : String) (c : Bool)
    (acc : List (String × Nat × Nat)) (h : t' ≠ t) :
    lookupTheme (bumpTheme t c acc) t' = lookupTheme acc t' := by
  induction acc with
  | nil => simp [bumpTheme, lookupTheme, Ne.symm h]
  | cons p rest ih =>
      obtain ⟨t0, tot, cor⟩ := p
      by_cases h0 : t0 = t
      · subst h0
        simp [bumpTheme, lookupTheme, Ne.symm h]
      · simp [bumpTheme, lookupTheme, h0, ih]

theorem fold_bumpTheme_lookup (attempts : List Attempt) (t : String) :
    ∀ acc, lookupTheme
        (attempts.foldl (fun acc a => bumpTheme a.theme a.correct acc) acc) t
      = combineCounts (lookupTheme acc t)
          (attempts.countP (fun a => a.theme = t))
          (attempts.countP (fun a => a.theme = t && a.correct)) := by
  induction attempts with
  | nil =>
      intro acc
      simp only [List.foldl_nil, List.countP_nil]
      cases hlk : lookupTheme acc t with
      | none => simp [combineCounts]
      | some v => obtain ⟨x, y⟩ := v; simp [combineCounts]
  | cons a rest ih =>
      intro acc
      simp only [List.foldl_cons, List.countP_cons]
      rw [ih]
      by_cases h : a.theme = t
      · rw [show lookupTheme (bumpTheme a.theme a.correct acc) t
            = lookupTheme (bumpTheme t a.correct acc) t from by rw [h]]
        rw [lookupTheme_bumpTheme_self]
        cases hlk : lookupTheme acc t with
        | none =>
            simp only [hlk, combineCounts, h]
            by_cases hc : a.correct <;> simp [hc] <;> omega
        | some v =>
            obtain ⟨x, y⟩ := v
            simp only [hlk, combineCounts, h]
            by_cases hc : a.correct <;> simp [hc] <;> omega
      · rw [lookupTheme_bumpTheme_ne a.theme t a.correct acc (Ne.symm h)]
        simp [h]

theorem mem_keys_bumpTheme (t x : String) (c : Bool)
    (acc : List (String × Nat × Nat)) :
    x ∈ (bumpTheme t c acc).map Prod.fst ↔ x ∈ acc.map Prod.fst ∨ x = t := by
  induction acc with
  | nil => simp [bumpTheme]
  | cons p rest ih =>
      obtain ⟨t0, tot0, cor0⟩ := p
      by_cases h0 : t0 = t
      · subst h0
        have hb : bumpTheme t0 c ((t0, tot0, cor0) :: rest)
            = (t0, tot0 + 1, cor0 + if c then 1 else 0) :: rest := by
          simp [bumpTheme]
        rw [hb]
        simp only [List.map_cons, List.mem_cons]
        tauto
      · simp only [bumpTheme, if_neg h0, List.map_cons, List.mem_cons, ih]
        tauto

theorem nodup_keys_bumpTheme (t : String) (c : Bool)
    (acc : List (String × Nat × Nat)) (h : (acc.map Prod.fst).Nodup) :
    ((bumpTheme t c acc).map Prod.fst).Nodup := by
  induction acc with
  | nil => simp [bumpTheme]
  | cons p rest ih =>
      obtain ⟨t0, tot0, cor0⟩ := p
      simp only [List.map_cons, List.nodup_cons] at h
      obtain ⟨hnot, hrest⟩ := h
      by_cases h0 : t0 = t
      · subst h0
        have hb : bumpTheme t0 c ((t0, tot0, cor0) :: rest)
            = (t0, tot0 + 1, cor0 + if c then 1 else 0) :: rest := by
          simp [bumpTheme]
        rw [hb]
        simp only [List.map_cons, List.nodup_cons]
        exact ⟨hnot, hrest⟩
      · simp only [bumpTheme, if_neg h0, List.map_cons, List.nodup_cons]
        refine ⟨?_, ih hrest⟩
        rw [mem_keys_bumpTheme]
        rintro (hmem | rfl)
        · exact hnot hmem
        · exact h0 rfl

theorem nodup_keys_fold (attempts : List Attempt) :
    ∀ acc : List (String × Nat × Nat), (acc.map Prod.fst).Nodup →
      ((attempts.foldl (fun acc a => bumpTheme a.theme a.correct acc) acc).map
        Prod.fst).Nodup := by
  induction attempts with
  | nil => intro acc h; simpa using h
  | cons a rest ih =>
      intro acc h
      exact ih _ (nodup_keys_bumpTheme a.theme a.correct acc h)

theorem lookupTheme_of_mem (acc : List (String × Nat × Nat)) (t : String)
    (v : Nat × Nat) (hnd : (acc.map Prod.fst).Nodup) (hmem : (t, v) ∈ acc) :
    lookupTheme acc t = some v := by
  induction acc with
  | nil => cases hmem
  | cons p rest ih =>
      obtain ⟨t0, v0⟩ := p
      simp only [List.map_cons, List.nodup_cons] at hnd
      rcases List.mem_cons.mp hmem with hE | hmem'
      · obtain ⟨h1, h2⟩ := Prod.mk.injEq .. ▸ hE.symm
        subst h1
        subst h2
        simp [lookupTheme]
      · have ht : t0 ≠ t := by
          rintro rfl
          exact hnd.1 (List.mem_map.mpr ⟨(t0, v), hmem', rfl⟩)
        simp [lookupTheme, ht, ih hnd.2 hmem']

/-- C2 as frozen is false: an attempt whose theme is the literal string
`"Tous"` is grouped under the key `"Tous"` by `theme_breakdown`, while
`compute_overall "Tous"` treats `"Tous"` as the all-themes sentinel and
aggregates every attempt, so the two disagree. -/
theorem theme_breakdown_tous_counterexample :
    ("Tous", ({ total := 1, correct := 1, rate := 100 } : OverallStats))
        ∈ theme_breakdown none tousStore ∧
      compute_overall (some "Tous") tousStore
        ≠ { total := 1, correct := 1, rate := 100 } := by
  constructor
  · have hb : theme_breakdown none tousStore
        = [("Tous", { total := 1, correct := 1, rate := 100 }),
           ("A", { total := 1, correct := 0, rate := 0 })] := by
      simp [theme_breakdown, filtered_attempts, tousStore, emptyStore,
        sampleAttempt, bumpTheme]
    rw [hb]
    exact List.mem_cons_self _ _
  · have ho : compute_overall (some "Tous") tousStore
        = { total := 2, correct := 1, rate := 50 } := by
      simp [compute_overall, filtered_attempts, tousStore, emptyStore,
        sampleAttempt]
      norm_num
    rw [ho]
    intro hE
    cases hE

/-- C2 amended: for every theme key other than the all-themes sentinel
`"Tous"`, the `theme_breakdown` entry coincides with `compute_overall` of
that theme. -/
theorem theme_breakdown_matches_overall (s : Store) (t : String)
    (st : OverallStats) (hmem : (t, st) ∈ theme_breakdown none s)
    (ht : t ≠ "Tous") : st = compute_overall (some t) s := by
  unfold theme_breakdown at hmem
  obtain ⟨⟨t0, tot, cor⟩, hpmem, hpe⟩ := List.mem_map.mp hmem
  simp only [Prod.mk.injEq] at hpe
  obtain ⟨rfl, hst⟩ := hpe
  have hnd : ((s.attempts.foldl
      (fun acc a => bumpTheme a.theme a.correct acc) []).map Prod.fst).Nodup :=
    nodup_keys_fold s.attempts [] (by simp)
  have hlk := lookupTheme_of_mem _ t0 (tot, cor) hnd hpmem
  rw [fold_bumpTheme_lookup s.attempts t0 []] at hlk
  simp only [lookupTheme, combineCounts] at hlk
  by_cases hn : s.attempts.countP (fun a => a.theme = t0) = 0
  · rw [if_pos hn] at hlk
    cases hlk
  · rw [if_neg hn] at hlk
    obtain ⟨htot, hcor⟩ := Prod.mk.injEq .. ▸ (Option.some.inj hlk).symm
    have hfa0 : filtered_attempts (some t0) s
        = if t0 = "Tous" then s.attempts
          else s.attempts.filter (fun a => a.theme = t0) := rfl
    have hfa : filtered_attempts (some t0) s
        = s.attempts.filter (fun a => a.theme = t0) := by
      rw [hfa0, if_neg ht]
    have htot' : (filtered_attempts (some t0) s).length
        = s.attempts.countP (fun a => a.theme = t0) := by
      rw [hfa, List.countP_eq_length_filter]
    have hcor' : (filtered_attempts (some t0) s).countP (fun a => a.correct)
        = s.attempts.countP (fun a => a.theme = t0 && a.correct) := by
      rw [hfa, List.countP_filter]
      refine List.countP_congr ?_
      intro a _
      cases hc : a.correct <;> simp [hc]
    have h1 : (filtered_attempts (some t0) s).length = tot := by
      rw [htot']
      exact htot.symm
    have h2 : (filtered_attempts (some t0) s).countP (fun a => a.correct) = cor := by
      rw [hcor']
      exact hcor.symm
    rw [← hst]
    unfold compute_overall
    simp only [h1, h2]

theorem theme_breakdown_matches_overall_witness :
    ({ total := 1, correct := 0, rate := 0 } : OverallStats)
      = compute_overall (some "A") tousStore :=
  theme_breakdown_matches_overall tousStore "A"
    { total := 1, correct := 0, rate := 0 }
    (by simp [theme_breakdown, filtered_attempts, tousStore, emptyStore,
      sampleAttempt, bumpTheme])
    (by decide)

theorem lastN_length (n : Nat) (l : List Nat) :
    (lastN n l).length = min n l.length := by
  unfold lastN
  rw [List.length_drop]
  omega

theorem lastN_cons_of_le (w : Nat) (a : Nat) (l : List Nat)
    (h : w ≤ l.length) : lastN w (a :: l) = lastN w l := by
  unfold lastN
  have hlen : (a :: l).length - w = (l.length - w) + 1 := by
    simp only [List.length_cons]
    omega
  rw [hlen, List.drop_succ_cons]

theorem lastN_all_of_le (w : Nat) (l : List Nat) (h : l.length ≤ w) :
    lastN w l = l := by
  unfold lastN
  rw [Nat.sub_eq_zero_of_le h, List.drop_zero]

theorem lastN_lastN_append (w : Nat) (l X : List Nat) :
    lastN w (lastN w l ++ X) = lastN w (l ++ X) := by
  induction l with
  | nil => simp [lastN]
  | cons a l' ih =>
      by_cases h : l'.length + 1 ≤ w
      · rw [lastN_all_of_le w (a :: l') (by simpa using h)]
      · have hw : w ≤ l'.length := by omega
        rw [lastN_cons_of_le w a l' hw, List.cons_append,
          lastN_cons_of_le w a (l' ++ X) (by simp; omega)]
        exact ih

theorem rollStep_eq_lastN (w : Nat) (rolling : List Nat) (bit : Nat)
    (h : rolling.length ≤ w) :
    rollStep w rolling bit = lastN w (rolling ++ [bit]) := by
  unfold rollStep lastN
  simp only [List.length_append, List.length_singleton]
  by_cases hlen : w < rolling.length + 1
  · rw [if_pos hlen, show rolling.length + 1 - w = 1 from by omega]
  · rw [if_neg hlen, show rolling.length + 1 - w = 0 from by omega,
      List.drop_zero]

theorem movingLoop_length (w : Nat) :
    ∀ (attempts : List Attempt) (acc : List Nat) (idx : Nat),
      (movingLoop w attempts acc idx).length = attempts.length := by
  intro attempts
  induction attempts with
  | nil => intro acc idx; rfl
  | cons a rest ih =>
      intro acc idx
      simp only [movingLoop, List.length_cons, ih]

theorem sum_bits_eq_countP (l : List Attempt) :
    (l.map (fun a => if a.correct then 1 else 0)).sum
      = l.countP (fun a => a.correct) := by
  induction l with
  | nil => rfl
  | cons a rest ih =>
      simp only [List.map_cons, List.sum_cons, List.countP_cons, ih]
      by_cases hc : a.correct <;> simp [hc] <;> omega

theorem sum_le_length_of_binary (l : List Nat) (h : ∀ x ∈ l, x ≤ 1) :
    l.sum ≤ l.length := by
  induction l with
  | nil => simp
  | cons x rest ih =>
      simp only [List.sum_cons, List.length_cons]
      have hx := h x (List.mem_cons_self _ _)
      have hrest := ih (fun y hy => h y (List.mem_cons_of_mem _ hy))
      omega

theorem rate_bounds (S M : Nat) (hSM : S ≤ M) (hM : 1 ≤ M) :
    0 ≤ ((S : Rat) / (M : Rat)) * 100 ∧ ((S : Rat) / (M : Rat)) * 100 ≤ 100 := by
  have hpos : (0 : Rat) < (M : Rat) := by exact_mod_cast hM
  constructor
  · positivity
  · have h1 : (S : Rat) / (M : Rat) ≤ 1 := by
      rw [div_le_one hpos]
      exact_mod_cast hSM
    have h2 := mul_le_mul_of_nonneg_right h1 (show (0 : Rat) ≤ 100 by norm_num)
    simpa using h2

theorem rollStep_length_le (w : Nat) (rolling : List Nat) (bit : Nat)
    (h : rolling.length ≤ w) : (rollStep w rolling bit).length ≤ w := by
  rw [rollStep_eq_lastN w rolling bit h, lastN_length]
  omega

theorem movingLoop_get (w : Nat) :
    ∀ (attempts : List Attempt) (acc : List Nat) (idx j : Nat)
      (hacc : acc.length ≤ w) (hj : j < (movingLoop w attempts acc idx).length),
      (movingLoop w attempts acc idx).get ⟨j, hj⟩
        = (idx + j,
           ((lastN w (acc ++ (attempts.take (j + 1)).map
              (fun a => if a.correct then 1 else 0))).sum : Rat)
            / ((lastN w (acc ++ (attempts.take (j + 1)).map
              (fun a => if a.correct then 1 else 0))).length : Rat) * 100) := by
  intro attempts
  induction attempts with
  | nil =>
      intro acc idx j hacc hj
      simp [movingLoop] at hj
  | cons a rest ih =>
      intro acc idx j hacc hj
      have hroll : rollStep w acc (if a.correct then 1 else 0)
          = lastN w (acc ++ [if a.correct then 1 else 0]) :=
        rollStep_eq_lastN w acc _ hacc
      cases j with
      | zero =>
          simp only [movingLoop, List.get]
          rw [hroll]
          simp [List.take_succ_cons]
      | succ j =>
          have hj' : j < (movingLoop w rest
              (rollStep w acc (if a.correct then 1 else 0)) (idx + 1)).length := by
            simp only [movingLoop, List.length_cons] at hj
            omega
          have htail : (movingLoop w (a :: rest) acc idx).get ⟨j + 1, hj⟩
              = (movingLoop w rest (rollStep w acc (if a.correct then 1 else 0))
                  (idx + 1)).get ⟨j, hj'⟩ := rfl
          rw [htail, ih _ (idx + 1) j
            (by rw [hroll, lastN_length]; omega) hj']
          rw [hroll]
          rw [lastN_lastN_append]
          have harr : (acc ++ [if a.correct then 1 else 0])
                ++ (rest.take (j + 1)).map (fun a => if a.correct then 1 else 0)
              = acc ++ ((a :: rest).take (j + 1 + 1)).map
                  (fun a => if a.correct then 1 else 0) := by
            rw [List.take_succ_cons, List.map_cons, List.append_assoc]
            rfl
          rw [harr]
          have hidx : idx + 1 + j = idx + (j + 1) := by omega
          rw [hidx]

/-- C4: for `w ≥ 1`, `moving_success` emits one point per filtered attempt
over the timestamp-sorted sequence; indices run `1, 2, ...` in order, each
rate is the percentage of correct answers among the trailing
`min(index, w)` sorted attempts ending at that index, every rate lies in
`[0, 100]`, and the sequence it scans is sorted by ascending timestamp. -/
theorem moving_success_spec (w : Nat) (theme : Option String) (s : Store)
    (hw : 1 ≤ w) :
    (moving_success w theme s).length = (filtered_attempts theme s).length ∧
    (∀ j (hj : j < (moving_success w theme s).length),
      ((moving_success w theme s).get ⟨j, hj⟩).1 = j + 1) ∧
    (∀ p ∈ moving_success w theme s, 0 ≤ p.2 ∧ p.2 ≤ 100) ∧
    (∀ j (hj : j < (moving_success w theme s).length),
      ((moving_success w theme s).get ⟨j, hj⟩).2
        = 100 * (((((filtered_attempts theme s).mergeSort
              (fun a b => a.ts ≤ b.ts)).take (j + 1)).drop (j + 1 - w)).countP
              (fun a => a.correct) : Rat)
          / ((min (j + 1) w : Nat) : Rat)) ∧
    List.Pairwise (fun a b => a.ts ≤ b.ts)
      ((filtered_attempts theme s).mergeSort (fun a b => a.ts ≤ b.ts)) := by
  have hlen : (moving_success w theme s).length
      = ((filtered_attempts theme s).mergeSort (fun a b => a.ts ≤ b.ts)).length :=
    movingLoop_length w _ [] 1
  have hkey : ∀ j (hj : j < (moving_success w theme s).length),
      (moving_success w theme s).get ⟨j, hj⟩
        = (1 + j,
           ((lastN w ((((filtered_attempts theme s).mergeSort
                (fun a b => a.ts ≤ b.ts)).take (j + 1)).map
              (fun a => if a.correct then 1 else 0))).sum : Rat)
            / ((lastN w ((((filtered_attempts theme s).mergeSort
                (fun a b => a.ts ≤ b.ts)).take (j + 1)).map
              (fun a => if a.correct then 1 else 0))).length : Rat) * 100) := by
    intro j hj
    have := movingLoop_get w
      ((filtered_attempts theme s).mergeSort (fun a b => a.ts ≤ b.ts)) [] 1 j
      (by simp) hj
    simpa using this
  have hbuf : ∀ j, j < (moving_success w theme s).length →
      (lastN w ((((filtered_attempts theme s).mergeSort
          (fun a b => a.ts ≤ b.ts)).take (j + 1)).map
        (fun a => if a.correct then 1 else 0)))
      = (((((filtered_attempts theme s).mergeSort
          (fun a b => a.ts ≤ b.ts)).take (j + 1)).drop (j + 1 - w)).map
        (fun a => if a.correct then 1 else 0)) := by
    intro j hj
    have hjlen : j + 1
        ≤ ((filtered_attempts theme s).mergeSort (fun a b => a.ts ≤ b.ts)).length := by
      omega
    unfold lastN
    rw [List.length_map, List.length_take, List.map_drop]
    congr 1
    omega
  have hbuflen : ∀ j, j < (moving_success w theme s).length →
      ((((filtered_attempts theme s).mergeSort
          (fun a b => a.ts ≤ b.ts)).take (j + 1)).drop (j + 1 - w)).length
        = min (j + 1) w := by
    intro j hj
    have hjlen : j + 1
        ≤ ((filtered_attempts theme s).mergeSort (fun a b => a.ts ≤ b.ts)).length := by
      omega
    rw [List.length_drop, List.length_take]
    omega
  refine ⟨by rw [hlen, List.length_mergeSort], ?_, ?_, ?_, ?_⟩
  · intro j hj
    rw [hkey j hj]
    omega
  · intro p hp
    obtain ⟨⟨j, hj⟩, hget⟩ := List.mem_iff_get.mp hp
    rw [hkey j hj] at hget
    subst hget
    dsimp only
    rw [hbuf j hj]
    have hsum := sum_le_length_of_binary
      ((((((filtered_attempts theme s).mergeSort
          (fun a b => a.ts ≤ b.ts)).take (j + 1)).drop (j + 1 - w)).map
        (fun a => if a.correct then 1 else 0)))
      (by
        intro x hx
        obtain ⟨a, -, hax⟩ := List.mem_map.mp hx
        by_cases hc : a.correct
        · simp [hc] at hax
          omega
        · simp [hc] at hax
          omega)
    rw [List.length_map, hbuflen j hj] at hsum ⊢
    exact rate_bounds _ _ hsum (by omega)
  · intro j hj
    rw [hkey j hj]
    simp only
    rw [hbuf j hj, sum_bits_eq_countP, List.length_map, hbuflen j hj]
    ring
  · have htrans : ∀ a b c : Attempt,
        (fun a b : Attempt => decide (a.ts ≤ b.ts)) a b = true →
        (fun a b : Attempt => decide (a.ts ≤ b.ts)) b c = true →
        (fun a b : Attempt => decide (a.ts ≤ b.ts)) a c = true := by
      intro a b c hab hbc
      simp only [decide_eq_true_eq] at hab hbc ⊢
      exact le_trans hab hbc
    have htotal : ∀ a b : Attempt,
        ((fun a b : Attempt => decide (a.ts ≤ b.ts)) a b
          || (fun a b : Attempt => decide (a.ts ≤ b.ts)) b a) = true := by
      intro a b
      rcases le_total a.ts b.ts with h | h <;> simp [h]
    have hpw := List.sorted_mergeSort htrans htotal (filtered_attempts theme s)
    exact hpw.imp (fun h => of_decide_eq_true h)

theorem moving_success_spec_witness :
    (moving_success 5 none emptyStore).length
      = (filtered_attempts none emptyStore).length :=
  (moving_success_spec 5 none emptyStore (by decide)).1

end QuizStats
